import Mathlib

/-!
Verification of the snapshot/delta timeline engine of the sigma16-visualiser
repository (src/hooks/useSigma16Timeline.js).  The hook's pure logic —
state capture, delta computation, delta application, state reconstruction,
and navigation — is embedded shallowly below.  The Sigma16 execution engine
(src/logic/emulator.mjs, assembler.mjs, arrbuf.mjs, architecture.mjs) is
vendored in the repository but not part of the analysed snapshot; it is
modelled abstractly as a bundle of accessor/step operations (`EngineOps`),
following the spec's description of the external engine interface.
-/

namespace Sigma16

/-- Number of memory words, `MEMORY_WORDS = 65536` in the source. -/
def MEMORY_WORDS : Nat := 65536

/-- Modelled from the spec: the numeric status code `ab.SCB_halted` of the
engine module src/logic/arrbuf.mjs, which is missing from the snapshot.
Only equality with this distinguished code is ever used by the hook, so the
concrete value is immaterial. -/
def SCB_halted : Nat := 4

/-- Modelled from the spec: `arch.extractBoolLE` of src/logic/architecture.mjs
(missing from the snapshot) extracts one condition-code bit from the R15
word; we model it as a bit test. -/
def extractBoolLE (w bit : Nat) : Bool := Nat.testBit w bit

/-- Modelled from the spec: condition-code bit positions `arch.bit_ccC`,
`bit_ccV`, `bit_ccG`, `bit_ccE` (src/logic/architecture.mjs, missing from
the snapshot).  Concrete values are immaterial: the hook only threads the
extracted bits through capture and delta unchanged. -/
def bit_ccC : Nat := 3

/-- Modelled from the spec: see `bit_ccC`. -/
def bit_ccV : Nat := 2

/-- Modelled from the spec: see `bit_ccC`. -/
def bit_ccG : Nat := 1

/-- Modelled from the spec: see `bit_ccC`. -/
def bit_ccE : Nat := 0

/-- Abstract interface to the external Sigma16 execution engine.  Modelled
from the spec (§6, "execution engine calls consumed") and from the accessor
calls the hook makes: `es.regfile[i].get()`, `ab.readMem16`, `es.pc.get()`,
`es.ir.get()`, `es.statusreg/mask/req/vect.get()`, `ab.readSCB` for the
status and current/next instruction address cells, `ab.readInstrCount`,
the per-instruction logs `es.copyable.regFetched` / `regStored` /
`memStoreLog`, and `executeInstruction`.  The engine mutates `es` in place
in JS; here one instruction is a function `ES → ES`. -/
structure EngineOps (ES : Type) where
  regGet : ES → Nat → Nat
  memGet : ES → Nat → Nat
  pcGet : ES → Nat
  irGet : ES → Nat
  statusregGet : ES → Nat
  maskGet : ES → Nat
  reqGet : ES → Nat
  vectGet : ES → Nat
  scbStatus : ES → Nat
  scbCurInstrAddr : ES → Nat
  scbNextInstrAddr : ES → Nat
  instrCountGet : ES → Nat
  regFetched : ES → List Nat
  regStored : ES → List Nat
  memStoreLog : ES → List Nat
  executeInstruction : ES → ES

/-- `MachineState`: the shape produced by `captureFullState` (part_002,
lines 1578-1601).  The register file and memory are `Uint16Array`s in JS;
they are modelled as functions from index to word value, with the capture
functions writing `0` outside the array bounds and all writes masked to
16 bits as a `Uint16Array` store does. -/
structure MachineState where
  pc : Nat
  ir : Nat
  reg : Nat → Nat
  mem : Nat → Nat
  ccC : Bool
  ccV : Bool
  ccG : Bool
  ccE : Bool
  statusreg : Nat
  mask : Nat
  req : Nat
  vect : Nat
  halted : Bool
  instrCount : Nat

attribute [ext] MachineState

/-- `captureRegisters` (part_002, lines 1564-1570): a fresh `Uint16Array(16)`
holding `es.regfile[i].get()` for `i < 16`. -/
def captureRegisters {ES : Type} (ops : EngineOps ES) (es : ES) : Nat → Nat :=
  fun i => if i < 16 then ops.regGet es i % 65536 else 0

/-- `captureMemory` (part_002, lines 1572-1576): a fresh
`Uint16Array(MEMORY_WORDS)` copied from the engine's memory region. -/
def captureMemory {ES : Type} (ops : EngineOps ES) (es : ES) : Nat → Nat :=
  fun a => if a < MEMORY_WORDS then ops.memGet es a % 65536 else 0

/-- `captureFullState` (part_002, lines 1578-1601). -/
def captureFullState {ES : Type} (ops : EngineOps ES) (es : ES) : MachineState :=
  let ccWord := ops.regGet es 15
  { pc := ops.pcGet es
    ir := ops.irGet es
    reg := captureRegisters ops es
    mem := captureMemory ops es
    ccC := extractBoolLE ccWord bit_ccC
    ccV := extractBoolLE ccWord bit_ccV
    ccG := extractBoolLE ccWord bit_ccG
    ccE := extractBoolLE ccWord bit_ccE
    statusreg := ops.statusregGet es
    mask := ops.maskGet es
    req := ops.reqGet es
    vect := ops.vectGet es
    halted := ops.scbStatus es == SCB_halted
    instrCount := ops.instrCountGet es }

/-- `cloneState` (part_002, lines 1603-1609): a structural copy of the state
with fresh register/memory arrays holding the same contents. -/
def cloneState (state : MachineState) : MachineState :=
  { state with
    reg := fun i => state.reg i
    mem := fun a => state.mem a }

/-- The nested `controlRegs` record of a delta (part_002, lines 1646-1651). -/
structure ControlRegs where
  statusreg : Nat
  mask : Nat
  req : Nat
  vect : Nat
deriving DecidableEq

/-- `Delta`: the record built by `computeDelta` (part_002, lines 1611-1658).
The JS objects `changedRegisters` / `changedMemory` (numeric keys, assignment
overwrites) are modelled as association lists with overwrite-on-insert
(`objSet`), so keys are unique and each key maps to its last assigned
value. -/
structure Delta where
  pc : Nat
  ir : Nat
  curInstrAddr : Nat
  nextInstrAddr : Nat
  ccC : Bool
  ccV : Bool
  ccG : Bool
  ccE : Bool
  controlRegs : ControlRegs
  halted : Bool
  instrCount : Nat
  changedRegisters : List (Nat × Nat)
  changedMemory : List (Nat × Nat)
  touchedRegisters : List Nat
deriving DecidableEq

/-- JS object property assignment `obj[k] = v` for numeric keys: overwrite
the binding of `k` if present, otherwise append it. -/
def objSet (m : List (Nat × Nat)) (k v : Nat) : List (Nat × Nat) :=
  match m with
  | [] => [(k, v)]
  | (k', v') :: rest => if k' = k then (k, v) :: rest else (k', v') :: objSet rest k v

/-- JS `Set.prototype.add` on a set represented as its insertion-ordered
element list. -/
def setAdd (s : List Nat) (x : Nat) : List Nat :=
  if x ∈ s then s else s ++ [x]

/-- `computeDelta` (part_002, lines 1611-1658).  Register indices from the
engine's fetch/store logs are admitted only when `0 ≤ index < 16` (the JS
guard `regIndex >= 0 && regIndex < 16`; indices are naturals here, so only
the upper bound remains); memory store addresses are taken from the log
unfiltered, exactly as in the source. -/
def computeDelta {ES : Type} (ops : EngineOps ES) (es : ES) : Delta :=
  let ccWord := ops.regGet es 15
  let touchedFetched := (ops.regFetched es).foldl
    (fun s r => if r < 16 then setAdd s r else s) []
  let changedRegisters := (ops.regStored es).foldl
    (fun m r => if r < 16 then objSet m r (ops.regGet es r) else m) []
  let touchedRegisters := (ops.regStored es).foldl
    (fun s r => if r < 16 then setAdd s r else s) touchedFetched
  let changedMemory := (ops.memStoreLog es).foldl
    (fun m a => objSet m a (ops.memGet es a)) []
  { pc := ops.pcGet es
    ir := ops.irGet es
    curInstrAddr := ops.scbCurInstrAddr es
    nextInstrAddr := ops.scbNextInstrAddr es
    ccC := extractBoolLE ccWord bit_ccC
    ccV := extractBoolLE ccWord bit_ccV
    ccG := extractBoolLE ccWord bit_ccG
    ccE := extractBoolLE ccWord bit_ccE
    controlRegs :=
      { statusreg := ops.statusregGet es
        mask := ops.maskGet es
        req := ops.reqGet es
        vect := ops.vectGet es }
    halted := ops.scbStatus es == SCB_halted
    instrCount := ops.instrCountGet es
    changedRegisters := changedRegisters
    changedMemory := changedMemory
    touchedRegisters := touchedRegisters }

/-- A store `arr[k] = v` into a `Uint16Array` of length `len`: out-of-bounds
indices are silently ignored and stored values are masked to 16 bits. -/
def tarrWrite (f : Nat → Nat) (len k v : Nat) : Nat → Nat :=
  if k < len then fun i => if i = k then v % 65536 else f i else f

/-- `applyDelta` (part_002, lines 1660-1689): overwrite the scalar fields
unconditionally from the delta, copy the register/memory arrays and
overwrite only the cells listed in `changedRegisters` / `changedMemory`. -/
def applyDelta (state : MachineState) (delta : Delta) : MachineState :=
  { pc := delta.pc
    ir := delta.ir
    reg := delta.changedRegisters.foldl
      (fun f kv => tarrWrite f 16 kv.1 kv.2) (fun i => state.reg i)
    mem := delta.changedMemory.foldl
      (fun f kv => tarrWrite f MEMORY_WORDS kv.1 kv.2) (fun a => state.mem a)
    ccC := delta.ccC
    ccV := delta.ccV
    ccG := delta.ccG
    ccE := delta.ccE
    statusreg := delta.controlRegs.statusreg
    mask := delta.controlRegs.mask
    req := delta.controlRegs.req
    vect := delta.controlRegs.vect
    halted := delta.halted
    instrCount := delta.instrCount }

/-- `Timeline` (part_002, lines 1744-1754).  The presentation-only fields
(`assembly`, `sourceCode`, `lineMap`, `programRegisters`, `programInfo`) are
pass-through data never consumed by the timeline logic and are omitted. -/
structure Timeline where
  initialState : MachineState
  deltas : List Delta
  totalSteps : Nat
  completed : Bool

/-- The result of the external assembler call consumed by the hook
(part_002, lines 1721-1724); only the error count is inspected by the
timeline logic (`objectCode` is consumed by the engine-side loader). -/
structure AsmResult where
  nAsmErrors : Nat
deriving DecidableEq

/-- The hook's React state (part_002, lines 1709-1712): `timeline`,
`currentStep`, `isExecuting`, `error`, with their `useState` initial values
given by `initialNav`. -/
structure Nav where
  timeline : Option Timeline
  currentStep : Int
  isExecuting : Bool
  error : Option String

/-- The initial hook state: `useState(null)`, `useState(0)`,
`useState(false)`, `useState(null)`. -/
def initialNav : Nav :=
  { timeline := none, currentStep := 0, isExecuting := false, error := none }

/-- The run loop of `executeProgram` (part_002, lines 1736-1742):
`while (readSCB(es, SCB_status) !== SCB_halted && steps < maxSteps)`
execute one instruction and append `computeDelta`.  The remaining step
budget serves as fuel; the returned pair is the delta list and the final
engine state. -/
def runLoop {ES : Type} (ops : EngineOps ES) : Nat → ES → List Delta × ES
  | 0, es => ([], es)
  | fuel + 1, es =>
    if ops.scbStatus es = SCB_halted then ([], es)
    else
      let es' := ops.executeInstruction es
      let rest := runLoop ops fuel es'
      (computeDelta ops es' :: rest.1, rest.2)

/-- `executeProgram` (part_002, lines 1714-1762) as a transformer of the
hook state.  `asm` is the result of the external `assembler` call on the
source text and `es0` is the engine state after `createEmulatorState`,
`loadObjectCode` and the PC/SCB setup (lines 1726-1731) — all engine-side
operations on the vendored engine missing from the snapshot.  The JS
control flow: on an assembly error the explicit `throw` lands in the
`catch` branch, which records the error message and clears the timeline
without touching the step index; on success the new timeline is stored and
the step index reset to 0; `finally` clears `isExecuting` on both paths. -/
def executeProgram {ES : Type} (ops : EngineOps ES) (asm : AsmResult) (es0 : ES)
    (nav : Nav) (maxSteps : Nat) : Nav :=
  if 0 < asm.nAsmErrors then
    { nav with
      error := some ("Assembly failed with " ++ toString asm.nAsmErrors ++ " error(s).")
      timeline := none
      isExecuting := false }
  else
    let initialState := captureFullState ops es0
    let run := runLoop ops maxSteps es0
    { nav with
      timeline := some
        { initialState := initialState
          deltas := run.1
          totalSteps := run.1.length
          completed := ops.scbStatus run.2 == SCB_halted }
      currentStep := 0
      error := none
      isExecuting := false }

/-- `getStateAtStep` (part_002, lines 1764-1774): `null` when there is no
timeline or the step is outside `[0, totalSteps]`; otherwise clone the
initial snapshot and apply deltas `0 .. step-1` in order. -/
def getStateAtStep (nav : Nav) (step : Int) : Option MachineState :=
  match nav.timeline with
  | none => none
  | some tl =>
    if step < 0 ∨ (tl.totalSteps : Int) < step then none
    else some ((tl.deltas.take step.toNat).foldl applyDelta (cloneState tl.initialState))

/-- `currentState` (part_002, line 1776). -/
def currentState (nav : Nav) : Option MachineState :=
  getStateAtStep nav nav.currentStep

/-- `previousState` (part_002, lines 1777-1780): `null` when
`currentStep <= 0`, else the reconstruction at `currentStep - 1`. -/
def previousState (nav : Nav) : Option MachineState :=
  if nav.currentStep ≤ 0 then none
  else getStateAtStep nav (nav.currentStep - 1)

/-- `currentDelta` (part_002, lines 1782-1787): `null` without a timeline or
at step 0; otherwise `timeline.deltas[currentStep - 1]` (JS indexing with a
negative index yields `undefined`, i.e. `none`). -/
def currentDelta (nav : Nav) : Option Delta :=
  match nav.timeline with
  | none => none
  | some tl =>
    if nav.currentStep ≤ 0 then none
    else tl.deltas.get? (nav.currentStep - 1).toNat

/-- `goToStep` (part_002, lines 1811-1815). -/
def goToStep (nav : Nav) (step : Int) : Nav :=
  match nav.timeline with
  | none => nav
  | some tl =>
    if 0 ≤ step ∧ step ≤ (tl.totalSteps : Int) then { nav with currentStep := step }
    else nav

/-- `nextStep` (part_002, lines 1817-1821). -/
def nextStep (nav : Nav) : Nav :=
  match nav.timeline with
  | none => nav
  | some tl =>
    if nav.currentStep < (tl.totalSteps : Int) then
      { nav with currentStep := nav.currentStep + 1 }
    else nav

/-- `prevStep` (part_002, lines 1823-1827): note the source guards only on
`currentStep > 0`, without requiring a timeline. -/
def prevStep (nav : Nav) : Nav :=
  if 0 < nav.currentStep then { nav with currentStep := nav.currentStep - 1 }
  else nav

/-- `reset` (part_002, lines 1829-1831). -/
def reset (nav : Nav) : Nav :=
  { nav with currentStep := 0 }

/-- `goToEnd` (part_002, lines 1833-1837). -/
def goToEnd (nav : Nav) : Nav :=
  match nav.timeline with
  | none => nav
  | some tl => { nav with currentStep := (tl.totalSteps : Int) }

/-- One user navigation call, for reasoning about arbitrary call
sequences. -/
inductive NavOp where
  | next : NavOp
  | prev : NavOp
  | goTo (step : Int) : NavOp
  | toStart : NavOp
  | toEnd : NavOp

/-- Dispatch one navigation call to the corresponding hook function. -/
def applyNavOp (nav : Nav) : NavOp → Nav
  | NavOp.next => nextStep nav
  | NavOp.prev => prevStep nav
  | NavOp.goTo step => goToStep nav step
  | NavOp.toStart => reset nav
  | NavOp.toEnd => goToEnd nav

/-- A sequence of navigation calls applied in order. -/
def runNavOps (nav : Nav) (ops : List NavOp) : Nav :=
  ops.foldl applyNavOp nav

/-- Direct execution of `k` instructions on the engine from a given engine
state: `k`-fold application of `executeInstruction`. -/
def execN {ES : Type} (ops : EngineOps ES) : Nat → ES → ES
  | 0, es => es
  | k + 1, es => execN ops k (ops.executeInstruction es)

/-- Modelled from the spec: the instrumented engine (src/logic/emulator.mjs,
missing from the snapshot) reports via `es.copyable.regStored` /
`memStoreLog` every register and memory cell written by the instruction
just executed (spec §6: `executeOneInstruction(state) -> {readRegisters,
writtenRegisters, writtenAddresses}`), and logged store addresses lie
inside the memory array.  A cell absent from the log is unchanged by the
instruction. -/
def StepLogComplete {ES : Type} (ops : EngineOps ES) : Prop :=
  ∀ es : ES,
    (∀ r : Nat, r < 16 → r ∉ ops.regStored (ops.executeInstruction es) →
      ops.regGet (ops.executeInstruction es) r % 65536 = ops.regGet es r % 65536) ∧
    (∀ a : Nat, a < MEMORY_WORDS → a ∉ ops.memStoreLog (ops.executeInstruction es) →
      ops.memGet (ops.executeInstruction es) a % 65536 = ops.memGet es a % 65536) ∧
    (∀ a ∈ ops.memStoreLog (ops.executeInstruction es), a < MEMORY_WORDS)

/-! ### Heap-instrumented model of cloning and reconstruction

The claims about mutation and ownership of the `Uint16Array`s cannot be read
off a pure embedding, so `cloneState`, `applyDelta` and `getStateAtStep` are
re-embedded below with every `new Uint16Array(...)` made an explicit
allocation in a heap of arrays.  A machine state holds array identifiers
(`regId`, `memId`) instead of array values; allocation appends to the heap
and is the only heap operation the code performs — matching the JS, which
creates fresh typed arrays and writes only into those before they escape. -/

/-- The allocation store: array identifier `i` denotes `arrs[i]`. -/
structure Heap where
  arrs : List (Nat → Nat)

/-- `new Uint16Array(...)` with the given contents: append a fresh array and
return its identifier. -/
def Heap.alloc (h : Heap) (f : Nat → Nat) : Heap × Nat :=
  ({ arrs := h.arrs ++ [f] }, h.arrs.length)

/-- Dereference an array identifier (unallocated identifiers read as the
all-zero array; the code never produces them). -/
def Heap.read (h : Heap) (id : Nat) : Nat → Nat :=
  (h.arrs[id]?).getD (fun _ => 0)

/-- `MachineState` with the register/memory arrays held by reference. -/
structure HState where
  pc : Nat
  ir : Nat
  regId : Nat
  memId : Nat
  ccC : Bool
  ccV : Bool
  ccG : Bool
  ccE : Bool
  statusreg : Nat
  mask : Nat
  req : Nat
  vect : Nat
  halted : Bool
  instrCount : Nat

/-- `cloneState` (part_002, lines 1603-1609) with explicit allocation: the
spread copies the scalars and two fresh arrays are allocated with the old
contents. -/
def cloneStateH (h : Heap) (s : HState) : Heap × HState :=
  let r := h.alloc (fun i => h.read s.regId i)
  let m := r.1.alloc (fun a => r.1.read s.memId a)
  (m.1, { s with regId := r.2, memId := m.2 })

/-- `applyDelta` (part_002, lines 1660-1689) with explicit allocation: the
input state's arrays are only read; the entry writes land in the two fresh
copies. -/
def applyDeltaH (h : Heap) (s : HState) (d : Delta) : Heap × HState :=
  let r := h.alloc (d.changedRegisters.foldl
    (fun f kv => tarrWrite f 16 kv.1 kv.2) (fun i => h.read s.regId i))
  let m := r.1.alloc (d.changedMemory.foldl
    (fun f kv => tarrWrite f MEMORY_WORDS kv.1 kv.2) (fun a => r.1.read s.memId a))
  (m.1,
    { pc := d.pc
      ir := d.ir
      regId := r.2
      memId := m.2
      ccC := d.ccC
      ccV := d.ccV
      ccG := d.ccG
      ccE := d.ccE
      statusreg := d.controlRegs.statusreg
      mask := d.controlRegs.mask
      req := d.controlRegs.req
      vect := d.controlRegs.vect
      halted := d.halted
      instrCount := d.instrCount })

/-- A timeline whose initial snapshot holds its arrays by reference. -/
structure HTimeline where
  initialState : HState
  deltas : List Delta
  totalSteps : Nat

/-- The replay loop of `getStateAtStep` (part_002, lines 1770-1772),
threading the heap. -/
def replayH (h : Heap) (s : HState) : List Delta → Heap × HState
  | [] => (h, s)
  | d :: rest =>
    let step := applyDeltaH h s d
    replayH step.1 step.2 rest

/-- `getStateAtStep` (part_002, lines 1764-1774) over the heap model, for a
present timeline. -/
def getStateAtStepH (h : Heap) (tl : HTimeline) (step : Int) : Heap × Option HState :=
  if step < 0 ∨ (tl.totalSteps : Int) < step then (h, none)
  else
    let c := cloneStateH h tl.initialState
    let r := replayH c.1 c.2 (tl.deltas.take step.toNat)
    (r.1, some r.2)

/-! ### Concrete engine instances

Small engine instances used to evaluate the definitions on concrete runs.
Both are instances of the abstract engine interface that the real vendored
engine realises. -/

/-- An engine whose machine is already halted: the run loop records no
step. -/
def haltedOps : EngineOps Unit :=
  { regGet := fun _ _ => 0
    memGet := fun _ _ => 0
    pcGet := fun _ => 0
    irGet := fun _ => 0
    statusregGet := fun _ => 0
    maskGet := fun _ => 0
    reqGet := fun _ => 0
    vectGet := fun _ => 0
    scbStatus := fun _ => SCB_halted
    scbCurInstrAddr := fun _ => 0
    scbNextInstrAddr := fun _ => 0
    instrCountGet := fun _ => 0
    regFetched := fun _ => []
    regStored := fun _ => []
    memStoreLog := fun _ => []
    executeInstruction := fun es => es }

/-- An engine (state = number of executed instructions) whose single
instruction stores register 1 with the value 3 it already holds — the
behaviour of, e.g., a second consecutive `lea R1,3[R0]` — and then halts.
The store is duly reported in the `regStored` log although the value did
not change. -/
def rewriteOps : EngineOps Nat :=
  { regGet := fun _ r => if r = 1 then 3 else 0
    memGet := fun _ _ => 0
    pcGet := fun es => es
    irGet := fun _ => 0
    statusregGet := fun _ => 0
    maskGet := fun _ => 0
    reqGet := fun _ => 0
    vectGet := fun _ => 0
    scbStatus := fun es => if es = 0 then 0 else SCB_halted
    scbCurInstrAddr := fun _ => 0
    scbNextInstrAddr := fun _ => 0
    instrCountGet := fun es => es
    regFetched := fun _ => []
    regStored := fun es => if es = 0 then [] else [1]
    memStoreLog := fun _ => []
    executeInstruction := fun es => es + 1 }

/-- The delta recorded by the single step of `rewriteOps`. -/
def rewriteDelta : Delta := computeDelta rewriteOps 1

/-- The timeline produced by running `rewriteOps` (step cap 2). -/
def rewriteTimeline : Timeline :=
  { initialState := captureFullState rewriteOps 0
    deltas := [rewriteDelta]
    totalSteps := 1
    completed := true }

/-- A zero machine state, the capture of the halted engine. -/
def zeroState : MachineState := captureFullState haltedOps ()

/-- An empty timeline over `zeroState`. -/
def emptyTimeline : Timeline :=
  { initialState := zeroState, deltas := [], totalSteps := 0, completed := true }

/-- A navigator holding `emptyTimeline` at step 0. -/
def navEmpty : Nav :=
  { timeline := some emptyTimeline, currentStep := 0, isExecuting := false, error := none }

/-- A two-array heap for exercising the heap model. -/
def heapTwo : Heap := { arrs := [fun _ => 0, fun _ => 0] }

/-- A machine state referencing the two arrays of `heapTwo`. -/
def hstateZero : HState :=
  { pc := 0, ir := 0, regId := 0, memId := 1, ccC := false, ccV := false
    ccG := false, ccE := false, statusreg := 0, mask := 0, req := 0, vect := 0
    halted := false, instrCount := 0 }

/-- An empty heap timeline over `hstateZero`. -/
def htlZero : HTimeline := { initialState := hstateZero, deltas := [], totalSteps := 0 }

theorem cloneState_id (s : MachineState) : cloneState s = s := rfl

theorem objSet_subset (m : List (Nat × Nat)) (k v : Nat) :
    ∀ kv ∈ objSet m k v, kv ∈ m ∨ kv = (k, v) := by
  induction m with
  | nil =>
    intro kv hkv
    right
    simpa [objSet] using hkv
  | cons hd rest ih =>
    obtain ⟨a, b⟩ := hd
    intro kv hkv
    simp only [objSet] at hkv
    split at hkv
    · rcases List.mem_cons.mp hkv with h | h
      · right; exact h
      · left; exact List.mem_cons_of_mem _ h
    · rcases List.mem_cons.mp hkv with h | h
      · left; rw [h]; exact List.mem_cons_self _ _
      · rcases ih kv h with h' | h'
        · left; exact List.mem_cons_of_mem _ h'
        · right; exact h'

theorem objSet_keys (m : List (Nat × Nat)) (k v i : Nat) :
    i ∈ (objSet m k v).map Prod.fst ↔ i ∈ m.map Prod.fst ∨ i = k := by
  induction m with
  | nil => simp [objSet]
  | cons hd rest ih =>
    obtain ⟨a, b⟩ := hd
    simp only [objSet]
    split
    · rename_i hak
      subst hak
      simp only [List.map_cons, List.mem_cons]
      tauto
    · simp only [List.map_cons, List.mem_cons, ih]
      tauto

theorem regFold_mem (get : Nat → Nat) (L : List Nat) :
    ∀ (m0 : List (Nat × Nat)) (kv : Nat × Nat),
      kv ∈ L.foldl (fun m r => if r < 16 then objSet m r (get r) else m) m0 →
      kv ∈ m0 ∨ (kv.1 ∈ L ∧ kv.1 < 16 ∧ kv.2 = get kv.1) := by
  induction L with
  | nil =>
    intro m0 kv h
    left
    simpa using h
  | cons r L ih =>
    intro m0 kv h
    rw [List.foldl_cons] at h
    rcases ih _ kv h with h' | h'
    · by_cases hr : r < 16
      · rw [if_pos hr] at h'
        rcases objSet_subset m0 r (get r) kv h' with h2 | h2
        · left; exact h2
        · right
          subst h2
          exact ⟨List.mem_cons_self _ _, hr, rfl⟩
      · rw [if_neg hr] at h'
        left
        exact h'
    · right
      exact ⟨List.mem_cons_of_mem _ h'.1, h'.2⟩

theorem regFold_keys (get : Nat → Nat) (L : List Nat) :
    ∀ (m0 : List (Nat × Nat)) (i : Nat),
      i ∈ (L.foldl (fun m r => if r < 16 then objSet m r (get r) else m) m0).map Prod.fst
        ↔ i ∈ m0.map Prod.fst ∨ (i ∈ L ∧ i < 16) := by
  induction L with
  | nil => simp
  | cons r L ih =>
    intro m0 i
    rw [List.foldl_cons]
    by_cases hr : r < 16
    · rw [if_pos hr, ih, objSet_keys]
      simp only [List.mem_cons]
      constructor
      · rintro ((h | h) | h)
        · exact Or.inl h
        · exact Or.inr ⟨Or.inl h, h ▸ hr⟩
        · exact Or.inr ⟨Or.inr h.1, h.2⟩
      · rintro (h | ⟨h | h, hlt⟩)
        · exact Or.inl (Or.inl h)
        · exact Or.inl (Or.inr h)
        · exact Or.inr ⟨h, hlt⟩
    · rw [if_neg hr, ih]
      simp only [List.mem_cons]
      constructor
      · rintro (h | h)
        · exact Or.inl h
        · exact Or.inr ⟨Or.inr h.1, h.2⟩
      · rintro (h | ⟨h | h, hlt⟩)
        · exact Or.inl h
        · exact absurd (h ▸ hlt) hr
        · exact Or.inr ⟨h, hlt⟩

theorem memFold_mem (get : Nat → Nat) (L : List Nat) :
    ∀ (m0 : List (Nat × Nat)) (kv : Nat × Nat),
      kv ∈ L.foldl (fun m a => objSet m a (get a)) m0 →
      kv ∈ m0 ∨ (kv.1 ∈ L ∧ kv.2 = get kv.1) := by
  induction L with
  | nil =>
    intro m0 kv h
    left
    simpa using h
  | cons a L ih =>
    intro m0 kv h
    rw [List.foldl_cons] at h
    rcases ih _ kv h with h' | h'
    · rcases objSet_subset m0 a (get a) kv h' with h2 | h2
      · left; exact h2
      · right
        subst h2
        exact ⟨List.mem_cons_self _ _, rfl⟩
    · right
      exact ⟨List.mem_cons_of_mem _ h'.1, h'.2⟩

theorem memFold_keys (get : Nat → Nat) (L : List Nat) :
    ∀ (m0 : List (Nat × Nat)) (i : Nat),
      i ∈ (L.foldl (fun m a => objSet m a (get a)) m0).map Prod.fst
        ↔ i ∈ m0.map Prod.fst ∨ i ∈ L := by
  induction L with
  | nil => simp
  | cons a L ih =>
    intro m0 i
    rw [List.foldl_cons, ih, objSet_keys]
    simp only [List.mem_cons]
    tauto

theorem foldWrite_eval (get : Nat → Nat) (bound : Nat) :
    ∀ (entries : List (Nat × Nat)),
      (∀ kv ∈ entries, kv.1 < bound ∧ kv.2 = get kv.1) →
      ∀ (base : Nat → Nat) (i : Nat),
        entries.foldl (fun f kv => tarrWrite f bound kv.1 kv.2) base i
          = if i ∈ entries.map Prod.fst then get i % 65536 else base i := by
  intro entries
  induction entries with
  | nil =>
    intro _ base i
    simp
  | cons kv rest ih =>
    intro h base i
    have hkv := h kv (List.mem_cons_self _ _)
    have hrest : ∀ kv' ∈ rest, kv'.1 < bound ∧ kv'.2 = get kv'.1 :=
      fun kv' h' => h kv' (List.mem_cons_of_mem _ h')
    rw [List.foldl_cons, ih hrest]
    by_cases hi : i ∈ rest.map Prod.fst
    · rw [if_pos hi, if_pos]
      simp [hi]
    · rw [if_neg hi]
      unfold tarrWrite
      rw [if_pos hkv.1]
      by_cases hik : i = kv.1
      · rw [if_pos hik, if_pos, hkv.2, hik]
        simp [hik]
      · rw [if_neg hik, if_neg]
        simp only [List.map_cons, List.mem_cons]
        rintro (h' | h')
        · exact hik h'
        · exact hi h'

theorem changedRegisters_spec {ES : Type} (ops : EngineOps ES) (es : ES) :
    ∀ kv ∈ (computeDelta ops es).changedRegisters,
      kv.1 ∈ ops.regStored es ∧ kv.1 < 16 ∧ kv.2 = ops.regGet es kv.1 := by
  intro kv hkv
  have h := regFold_mem (ops.regGet es) (ops.regStored es) [] kv hkv
  simpa using h

theorem changedRegisters_keys {ES : Type} (ops : EngineOps ES) (es : ES) (i : Nat) :
    i ∈ (computeDelta ops es).changedRegisters.map Prod.fst
      ↔ i ∈ ops.regStored es ∧ i < 16 := by
  have h := regFold_keys (ops.regGet es) (ops.regStored es) [] i
  simpa using h

theorem changedMemory_spec {ES : Type} (ops : EngineOps ES) (es : ES) :
    ∀ kv ∈ (computeDelta ops es).changedMemory,
      kv.1 ∈ ops.memStoreLog es ∧ kv.2 = ops.memGet es kv.1 := by
  intro kv hkv
  have h := memFold_mem (ops.memGet es) (ops.memStoreLog es) [] kv hkv
  simpa using h

theorem changedMemory_keys {ES : Type} (ops : EngineOps ES) (es : ES) (i : Nat) :
    i ∈ (computeDelta ops es).changedMemory.map Prod.fst ↔ i ∈ ops.memStoreLog es := by
  have h := memFold_keys (ops.memGet es) (ops.memStoreLog es) [] i
  simpa using h

theorem applyDelta_reg_eval {ES : Type} (ops : EngineOps ES) (es : ES)
    (state : MachineState) (i : Nat) :
    (applyDelta state (computeDelta ops es)).reg i
      = if i ∈ ops.regStored es ∧ i < 16 then ops.regGet es i % 65536 else state.reg i := by
  have h := foldWrite_eval (ops.regGet es) 16 (computeDelta ops es).changedRegisters
    (fun kv hkv => ⟨(changedRegisters_spec ops es kv hkv).2.1,
      (changedRegisters_spec ops es kv hkv).2.2⟩)
    (fun j => state.reg j) i
  show (computeDelta ops es).changedRegisters.foldl
      (fun f kv => tarrWrite f 16 kv.1 kv.2) (fun j => state.reg j) i = _
  rw [h]
  simp only [changedRegisters_keys]

theorem applyDelta_mem_eval {ES : Type} (ops : EngineOps ES) (es : ES)
    (hbound : ∀ a ∈ ops.memStoreLog es, a < MEMORY_WORDS)
    (state : MachineState) (i : Nat) :
    (applyDelta state (computeDelta ops es)).mem i
      = if i ∈ ops.memStoreLog es then ops.memGet es i % 65536 else state.mem i := by
  have h := foldWrite_eval (ops.memGet es) MEMORY_WORDS (computeDelta ops es).changedMemory
    (fun kv hkv => ⟨hbound kv.1 (changedMemory_spec ops es kv hkv).1,
      (changedMemory_spec ops es kv hkv).2⟩)
    (fun j => state.mem j) i
  show (computeDelta ops es).changedMemory.foldl
      (fun f kv => tarrWrite f MEMORY_WORDS kv.1 kv.2) (fun j => state.mem j) i = _
  rw [h]
  simp only [changedMemory_keys]

theorem applyDelta_step {ES : Type} (ops : EngineOps ES) (hlog : StepLogComplete ops)
    (es : ES) :
    applyDelta (captureFullState ops es) (computeDelta ops (ops.executeInstruction es))
      = captureFullState ops (ops.executeInstruction es) := by
  have hreg := (hlog es).1
  have hmem := (hlog es).2.1
  have hbound := (hlog es).2.2
  ext
  case reg.h i =>
    rw [applyDelta_reg_eval]
    show _ = captureRegisters ops (ops.executeInstruction es) i
    unfold captureRegisters
    by_cases hi : i ∈ ops.regStored (ops.executeInstruction es) ∧ i < 16
    · rw [if_pos hi, if_pos hi.2]
    · rw [if_neg hi]
      show captureRegisters ops es i = _
      unfold captureRegisters
      by_cases hlt : i < 16
      · rw [if_pos hlt, if_pos hlt]
        exact (hreg i hlt (fun hmem' => hi ⟨hmem', hlt⟩)).symm
      · rw [if_neg hlt, if_neg hlt]
  case mem.h a =>
    rw [applyDelta_mem_eval ops _ hbound]
    show _ = captureMemory ops (ops.executeInstruction es) a
    unfold captureMemory
    by_cases ha : a ∈ ops.memStoreLog (ops.executeInstruction es)
    · rw [if_pos ha, if_pos (hbound a ha)]
    · rw [if_neg ha]
      show captureMemory ops es a = _
      unfold captureMemory
      by_cases hlt : a < MEMORY_WORDS
      · rw [if_pos hlt, if_pos hlt]
        exact (hmem a hlt ha).symm
      · rw [if_neg hlt, if_neg hlt]
  all_goals rfl

theorem runLoop_length_le {ES : Type} (ops : EngineOps ES) :
    ∀ (fuel : Nat) (es : ES), (runLoop ops fuel es).1.length ≤ fuel := by
  intro fuel
  induction fuel with
  | zero => intro es; simp [runLoop]
  | succ fuel ih =>
    intro es
    rw [runLoop]
    split
    · simp
    · simpa using Nat.succ_le_succ (ih (ops.executeInstruction es))

theorem runLoop_replay {ES : Type} (ops : EngineOps ES) (hlog : StepLogComplete ops) :
    ∀ (fuel : Nat) (es : ES) (k : Nat), k ≤ (runLoop ops fuel es).1.length →
      ((runLoop ops fuel es).1.take k).foldl applyDelta (captureFullState ops es)
        = captureFullState ops (execN ops k es) := by
  intro fuel
  induction fuel with
  | zero =>
    intro es k hk
    simp only [runLoop, List.length_nil, Nat.le_zero] at hk
    subst hk
    simp [runLoop, execN]
  | succ fuel ih =>
    intro es k hk
    rw [runLoop] at hk ⊢
    by_cases hh : ops.scbStatus es = SCB_halted
    · rw [if_pos hh] at hk ⊢
      simp only [List.length_nil, Nat.le_zero] at hk
      subst hk
      simp [execN]
    · rw [if_neg hh] at hk ⊢
      cases k with
      | zero => simp [execN]
      | succ j =>
        simp only [List.length_cons, Nat.succ_le_succ_iff] at hk
        rw [List.take_succ_cons, List.foldl_cons,
          applyDelta_step ops hlog es, execN]
        exact ih (ops.executeInstruction es) j hk

theorem executeProgram_success {ES : Type} (ops : EngineOps ES) (asm : AsmResult)
    (es0 : ES) (nav : Nav) (maxSteps : Nat) (hasm : asm.nAsmErrors = 0) :
    executeProgram ops asm es0 nav maxSteps =
      { nav with
        timeline := some
          { initialState := captureFullState ops es0
            deltas := (runLoop ops maxSteps es0).1
            totalSteps := (runLoop ops maxSteps es0).1.length
            completed := ops.scbStatus (runLoop ops maxSteps es0).2 == SCB_halted }
        currentStep := 0
        error := none
        isExecuting := false } := by
  rw [executeProgram, if_neg (by omega)]

theorem executeProgram_failure {ES : Type} (ops : EngineOps ES) (asm : AsmResult)
    (es0 : ES) (nav : Nav) (maxSteps : Nat) (hasm : 0 < asm.nAsmErrors) :
    executeProgram ops asm es0 nav maxSteps =
      { nav with
        error := some ("Assembly failed with " ++ toString asm.nAsmErrors ++ " error(s).")
        timeline := none
        isExecuting := false } := by
  rw [executeProgram, if_pos hasm]

theorem getStateAtStep_eval (nav : Nav) (tl : Timeline) (htl : nav.timeline = some tl)
    (step : Int) (h0 : 0 ≤ step) (h1 : step ≤ (tl.totalSteps : Int)) :
    getStateAtStep nav step
      = some ((tl.deltas.take step.toNat).foldl applyDelta (cloneState tl.initialState)) := by
  unfold getStateAtStep
  rw [htl]
  exact if_neg (by omega)

theorem getStateAtStep_oob (nav : Nav) (tl : Timeline) (htl : nav.timeline = some tl)
    (step : Int) (hstep : step < 0 ∨ (tl.totalSteps : Int) < step) :
    getStateAtStep nav step = none := by
  unfold getStateAtStep
  rw [htl]
  exact if_pos hstep

theorem nextStep_timeline (nav : Nav) : (nextStep nav).timeline = nav.timeline := by
  unfold nextStep
  split
  · rfl
  · split <;> rfl

theorem prevStep_timeline (nav : Nav) : (prevStep nav).timeline = nav.timeline := by
  unfold prevStep
  split <;> rfl

theorem goToStep_timeline (nav : Nav) (k : Int) : (goToStep nav k).timeline = nav.timeline := by
  unfold goToStep
  split
  · rfl
  · split <;> rfl

theorem reset_timeline (nav : Nav) : (reset nav).timeline = nav.timeline := rfl

theorem goToEnd_timeline (nav : Nav) : (goToEnd nav).timeline = nav.timeline := by
  unfold goToEnd
  split <;> rfl

theorem applyNavOp_timeline (nav : Nav) (op : NavOp) :
    (applyNavOp nav op).timeline = nav.timeline := by
  cases op with
  | next => exact nextStep_timeline nav
  | prev => exact prevStep_timeline nav
  | goTo k => exact goToStep_timeline nav k
  | toStart => exact reset_timeline nav
  | toEnd => exact goToEnd_timeline nav

/-- The navigation invariant: whenever a timeline is present, the current
step lies in `[0, totalSteps]`. -/
def StepInBounds (nav : Nav) : Prop :=
  ∀ tl : Timeline, nav.timeline = some tl →
    0 ≤ nav.currentStep ∧ nav.currentStep ≤ (tl.totalSteps : Int)

theorem nextStep_eq (nav : Nav) (tl : Timeline) (htl : nav.timeline = some tl) :
    nextStep nav = if nav.currentStep < (tl.totalSteps : Int) then
      { nav with currentStep := nav.currentStep + 1 } else nav := by
  unfold nextStep
  rw [htl]

theorem prevStep_eq (nav : Nav) :
    prevStep nav = if 0 < nav.currentStep then
      { nav with currentStep := nav.currentStep - 1 } else nav := rfl

theorem goToStep_eq (nav : Nav) (tl : Timeline) (htl : nav.timeline = some tl) (k : Int) :
    goToStep nav k = if 0 ≤ k ∧ k ≤ (tl.totalSteps : Int) then
      { nav with currentStep := k } else nav := by
  unfold goToStep
  rw [htl]

theorem goToEnd_eq (nav : Nav) (tl : Timeline) (htl : nav.timeline = some tl) :
    goToEnd nav = { nav with currentStep := (tl.totalSteps : Int) } := by
  unfold goToEnd
  rw [htl]

theorem applyNavOp_inv (nav : Nav) (op : NavOp) (h : StepInBounds nav) :
    StepInBounds (applyNavOp nav op) := by
  intro tl htl
  rw [applyNavOp_timeline] at htl
  have hb := h tl htl
  cases op with
  | next =>
    show 0 ≤ (nextStep nav).currentStep ∧ (nextStep nav).currentStep ≤ (tl.totalSteps : Int)
    rw [nextStep_eq nav tl htl]
    split
    · rename_i hc
      refine ⟨?_, ?_⟩ <;> (dsimp only; omega)
    · exact hb
  | prev =>
    show 0 ≤ (prevStep nav).currentStep ∧ (prevStep nav).currentStep ≤ (tl.totalSteps : Int)
    rw [prevStep_eq nav]
    split
    · rename_i hc
      refine ⟨?_, ?_⟩ <;> (dsimp only; omega)
    · exact hb
  | goTo k =>
    show 0 ≤ (goToStep nav k).currentStep ∧ (goToStep nav k).currentStep ≤ (tl.totalSteps : Int)
    rw [goToStep_eq nav tl htl k]
    split
    · rename_i hc
      exact ⟨hc.1, hc.2⟩
    · exact hb
  | toStart =>
    show 0 ≤ (reset nav).currentStep ∧ (reset nav).currentStep ≤ (tl.totalSteps : Int)
    refine ⟨le_refl 0, ?_⟩
    show (0 : Int) ≤ (tl.totalSteps : Int)
    omega
  | toEnd =>
    show 0 ≤ (goToEnd nav).currentStep ∧ (goToEnd nav).currentStep ≤ (tl.totalSteps : Int)
    rw [goToEnd_eq nav tl htl]
    refine ⟨?_, ?_⟩ <;> (dsimp only; omega)

theorem runNavOps_inv (ops : List NavOp) :
    ∀ nav : Nav, StepInBounds nav → StepInBounds (runNavOps nav ops) := by
  induction ops with
  | nil => intro nav h; exact h
  | cons op rest ih =>
    intro nav h
    exact ih (applyNavOp nav op) (applyNavOp_inv nav op h)

theorem runNavOps_timeline (ops : List NavOp) :
    ∀ nav : Nav, (runNavOps nav ops).timeline = nav.timeline := by
  induction ops with
  | nil => intro nav; rfl
  | cons op rest ih =>
    intro nav
    show (runNavOps (applyNavOp nav op) rest).timeline = _
    rw [ih, applyNavOp_timeline]

theorem execN_succ {ES : Type} (ops : EngineOps ES) :
    ∀ (k : Nat) (es : ES),
      execN ops (k + 1) es = ops.executeInstruction (execN ops k es) := by
  intro k
  induction k with
  | zero => intro es; rfl
  | succ j ih =>
    intro es
    show execN ops (j + 1) (ops.executeInstruction es) = _
    rw [ih (ops.executeInstruction es)]
    rfl

theorem runLoop_get {ES : Type} (ops : EngineOps ES) :
    ∀ (fuel : Nat) (es : ES) (i : Nat) (d : Delta),
      (runLoop ops fuel es).1.get? i = some d →
      d = computeDelta ops (execN ops (i + 1) es) := by
  intro fuel
  induction fuel with
  | zero =>
    intro es i d hd
    simp [runLoop] at hd
  | succ fuel ih =>
    intro es i d hd
    rw [runLoop] at hd
    by_cases hh : ops.scbStatus es = SCB_halted
    · rw [if_pos hh] at hd
      simp at hd
    · rw [if_neg hh] at hd
      cases i with
      | zero =>
        simp only [List.get?_cons_zero, Option.some.injEq] at hd
        exact hd.symm
      | succ j =>
        simp only [List.get?_cons_succ] at hd
        exact ih (ops.executeInstruction es) j d hd

theorem heap_read_of_extends (h h2 : Heap) (ext : List (Nat → Nat))
    (he : h2.arrs = h.arrs ++ ext) (i : Nat) (hi : i < h.arrs.length) :
    h2.read i = h.read i := by
  unfold Heap.read
  rw [he, List.getElem?_append_left hi]

theorem cloneStateH_extends (h : Heap) (s : HState) :
    ∃ ext, (cloneStateH h s).1.arrs = h.arrs ++ ext :=
  ⟨_, List.append_assoc _ _ _⟩

theorem cloneStateH_len (h : Heap) (s : HState) :
    (cloneStateH h s).1.arrs.length = h.arrs.length + 2 := by
  simp [cloneStateH, Heap.alloc]

theorem cloneStateH_regId (h : Heap) (s : HState) :
    (cloneStateH h s).2.regId = h.arrs.length := rfl

theorem cloneStateH_memId (h : Heap) (s : HState) :
    (cloneStateH h s).2.memId = h.arrs.length + 1 := by
  simp [cloneStateH, Heap.alloc]

theorem applyDeltaH_extends (h : Heap) (s : HState) (d : Delta) :
    ∃ ext, (applyDeltaH h s d).1.arrs = h.arrs ++ ext :=
  ⟨_, List.append_assoc _ _ _⟩

theorem applyDeltaH_regId (h : Heap) (s : HState) (d : Delta) :
    (applyDeltaH h s d).2.regId = h.arrs.length := rfl

theorem applyDeltaH_memId (h : Heap) (s : HState) (d : Delta) :
    (applyDeltaH h s d).2.memId = h.arrs.length + 1 := by
  simp [applyDeltaH, Heap.alloc]

theorem replayH_spec (ds : List Delta) :
    ∀ (h : Heap) (s : HState) (n : Nat), n ≤ h.arrs.length → n ≤ s.regId →
      n ≤ s.memId → s.regId ≠ s.memId →
      (∃ ext, (replayH h s ds).1.arrs = h.arrs ++ ext)
      ∧ n ≤ (replayH h s ds).2.regId ∧ n ≤ (replayH h s ds).2.memId
      ∧ (replayH h s ds).2.regId ≠ (replayH h s ds).2.memId := by
  induction ds with
  | nil =>
    intro h s n h1 h2 h3 h4
    exact ⟨⟨[], by simp [replayH]⟩, h2, h3, h4⟩
  | cons d rest ih =>
    intro h s n h1 h2 h3 h4
    have hstep : replayH h s (d :: rest)
        = replayH (applyDeltaH h s d).1 (applyDeltaH h s d).2 rest := rfl
    rw [hstep]
    obtain ⟨e1, he1⟩ := applyDeltaH_extends h s d
    have hlen : h.arrs.length ≤ (applyDeltaH h s d).1.arrs.length := by
      rw [he1]
      simp
    have hr := applyDeltaH_regId h s d
    have hm := applyDeltaH_memId h s d
    obtain ⟨⟨e2, he2⟩, hb1, hb2, hb3⟩ := ih (applyDeltaH h s d).1 (applyDeltaH h s d).2 n
      (le_trans h1 hlen) (by omega) (by omega) (by omega)
    refine ⟨⟨e1 ++ e2, ?_⟩, hb1, hb2, hb3⟩
    rw [he2, he1, List.append_assoc]

theorem getStateAtStepH_in_range (h : Heap) (tl : HTimeline) (step : Int)
    (hc : ¬(step < 0 ∨ (tl.totalSteps : Int) < step)) :
    getStateAtStepH h tl step =
      ((replayH (cloneStateH h tl.initialState).1 (cloneStateH h tl.initialState).2
          (tl.deltas.take step.toNat)).1,
        some (replayH (cloneStateH h tl.initialState).1 (cloneStateH h tl.initialState).2
          (tl.deltas.take step.toNat)).2) := by
  unfold getStateAtStepH
  rw [if_neg hc]

theorem getStateAtStepH_oob (h : Heap) (tl : HTimeline) (step : Int)
    (hc : step < 0 ∨ (tl.totalSteps : Int) < step) :
    getStateAtStepH h tl step = (h, none) := by
  unfold getStateAtStepH
  rw [if_pos hc]

/-- Modelled from the spec: the vendored engine satisfies the
store-log-completeness contract; trivially true for the halted engine. -/
theorem haltedOps_log : StepLogComplete haltedOps :=
  fun _ => ⟨fun _ _ _ => rfl, fun _ _ _ => rfl,
    fun a ha => absurd ha (List.not_mem_nil a)⟩

/-- The rewriting engine also satisfies the store-log contract: its single
store is reported, and nothing else ever changes. -/
theorem rewriteOps_log : StepLogComplete rewriteOps :=
  fun _ => ⟨fun _ _ _ => rfl, fun _ _ _ => rfl,
    fun a ha => absurd ha (List.not_mem_nil a)⟩

/-- C1: for every program run (any engine whose store logs are complete, as
the spec guarantees of the vendored engine) and every step k in
[0, totalSteps] of the produced timeline, reconstruction by
`getStateAtStep` — a fresh clone of the initial snapshot with deltas
0..k-1 applied in order, scalar fields overwritten unconditionally and
only the listed register/memory cells overwritten — equals the state
captured after directly executing k instructions from scratch. -/
theorem replay_matches_direct_execution {ES : Type} (ops : EngineOps ES)
    (hlog : StepLogComplete ops) (asm : AsmResult) (hasm : asm.nAsmErrors = 0)
    (es0 : ES) (nav : Nav) (maxSteps : Nat) (tl : Timeline)
    (htl : (executeProgram ops asm es0 nav maxSteps).timeline = some tl)
    (k : Nat) (hk : k ≤ tl.totalSteps) :
    getStateAtStep (executeProgram ops asm es0 nav maxSteps) (k : Int)
      = some (captureFullState ops (execN ops k es0)) := by
  rw [executeProgram_success ops asm es0 nav maxSteps hasm] at htl ⊢
  injection htl with htl2
  subst htl2
  rw [getStateAtStep_eval _ _ rfl (k : Int) (by omega) (by exact_mod_cast hk)]
  simp only [Int.toNat_natCast, cloneState_id]
  exact congrArg some (runLoop_replay ops hlog maxSteps es0 k hk)

/-- C1 witness: the trivial already-halted engine at step 0. -/
theorem replay_matches_direct_execution_witness :
    getStateAtStep (executeProgram haltedOps { nAsmErrors := 0 } () initialNav 5)
        ((0 : Nat) : Int)
      = some (captureFullState haltedOps (execN haltedOps 0 ())) :=
  replay_matches_direct_execution haltedOps haltedOps_log { nAsmErrors := 0 } rfl
    () initialNav 5
    { initialState := captureFullState haltedOps ()
      deltas := []
      totalSteps := 0
      completed := true } rfl 0 (Nat.le_refl 0)

/-- C3: for a navigator holding a timeline, a reconstruction request for a
step outside [0, totalSteps] is rejected (the hook returns the null result),
and the rejection is local: the navigator holds no state a reconstruction
call could alter (the function only reads), and any subsequent in-range
request still returns the replayed state. -/
theorem stateAtStep_out_of_range_rejected (nav : Nav) (tl : Timeline) (step : Int)
    (htl : nav.timeline = some tl)
    (hstep : step < 0 ∨ (tl.totalSteps : Int) < step) :
    getStateAtStep nav step = none
    ∧ ∀ k : Int, 0 ≤ k → k ≤ (tl.totalSteps : Int) →
        getStateAtStep nav k
          = some ((tl.deltas.take k.toNat).foldl applyDelta (cloneState tl.initialState)) :=
  ⟨getStateAtStep_oob nav tl htl step hstep,
    fun k h0 h1 => getStateAtStep_eval nav tl htl k h0 h1⟩

/-- C3 witness: requesting step 1 of the empty timeline. -/
theorem stateAtStep_out_of_range_rejected_witness :
    getStateAtStep navEmpty 1 = none
    ∧ ∀ k : Int, 0 ≤ k → k ≤ (emptyTimeline.totalSteps : Int) →
        getStateAtStep navEmpty k
          = some ((emptyTimeline.deltas.take k.toNat).foldl applyDelta
              (cloneState emptyTimeline.initialState)) :=
  stateAtStep_out_of_range_rejected navEmpty emptyTimeline 1 rfl (Or.inr (by decide))

/-- C4: starting from currentStep = 0, after any sequence of
nextStep/prevStep/goToStep/reset/goToEnd calls the invariant
0 ≤ currentStep ≤ totalSteps holds; nextStep at totalSteps and prevStep at
0 are no-ops; goToStep outside [0, totalSteps] makes no state change, and
inside the range it sets the current step to its argument. -/
theorem navigation_bounds (nav : Nav) (tl : Timeline) (htl : nav.timeline = some tl)
    (h0 : nav.currentStep = 0) (ops : List NavOp) :
    (0 ≤ (runNavOps nav ops).currentStep
      ∧ (runNavOps nav ops).currentStep ≤ (tl.totalSteps : Int))
    ∧ (∀ nav2 : Nav, nav2.timeline = some tl →
        nav2.currentStep = (tl.totalSteps : Int) → nextStep nav2 = nav2)
    ∧ (∀ nav2 : Nav, nav2.currentStep = 0 → prevStep nav2 = nav2)
    ∧ (∀ (nav2 : Nav) (k : Int), nav2.timeline = some tl →
        (k < 0 ∨ (tl.totalSteps : Int) < k) → goToStep nav2 k = nav2)
    ∧ (∀ (nav2 : Nav) (k : Int), nav2.timeline = some tl →
        0 ≤ k → k ≤ (tl.totalSteps : Int) → (goToStep nav2 k).currentStep = k) := by
  refine ⟨?_, ?_, ?_, ?_, ?_⟩
  · have hinv : StepInBounds nav := by
      intro tl2 htl2
      rw [htl] at htl2
      injection htl2 with h2
      subst h2
      rw [h0]
      exact ⟨le_refl 0, by omega⟩
    exact runNavOps_inv ops nav hinv tl (by rw [runNavOps_timeline]; exact htl)
  · intro nav2 htl2 hcur
    rw [nextStep_eq nav2 tl htl2, hcur, if_neg (lt_irrefl _)]
  · intro nav2 hcur
    rw [prevStep_eq nav2, hcur]
    exact if_neg (lt_irrefl 0)
  · intro nav2 k htl2 hk
    rw [goToStep_eq nav2 tl htl2 k, if_neg (by omega)]
  · intro nav2 k htl2 hk0 hk1
    rw [goToStep_eq nav2 tl htl2 k, if_pos ⟨hk0, hk1⟩]

/-- C4 witness: the empty timeline with the call sequence [next, prev]. -/
theorem navigation_bounds_witness :
    (0 ≤ (runNavOps navEmpty [NavOp.next, NavOp.prev]).currentStep
      ∧ (runNavOps navEmpty [NavOp.next, NavOp.prev]).currentStep
          ≤ (emptyTimeline.totalSteps : Int))
    ∧ (∀ nav2 : Nav, nav2.timeline = some emptyTimeline →
        nav2.currentStep = (emptyTimeline.totalSteps : Int) → nextStep nav2 = nav2)
    ∧ (∀ nav2 : Nav, nav2.currentStep = 0 → prevStep nav2 = nav2)
    ∧ (∀ (nav2 : Nav) (k : Int), nav2.timeline = some emptyTimeline →
        (k < 0 ∨ (emptyTimeline.totalSteps : Int) < k) → goToStep nav2 k = nav2)
    ∧ (∀ (nav2 : Nav) (k : Int), nav2.timeline = some emptyTimeline →
        0 ≤ k → k ≤ (emptyTimeline.totalSteps : Int) → (goToStep nav2 k).currentStep = k) :=
  navigation_bounds navEmpty emptyTimeline rfl rfl [NavOp.next, NavOp.prev]

/-- C5: replaying zero deltas returns a state structurally equal to the
initial snapshot: `getStateAtStep` at step 0 yields exactly
`timeline.initialState`. -/
theorem stateAtStep_zero_is_initial (nav : Nav) (tl : Timeline)
    (htl : nav.timeline = some tl) :
    getStateAtStep nav 0 = some tl.initialState := by
  rw [getStateAtStep_eval nav tl htl 0 (le_refl 0) (by omega)]
  rfl

/-- C5 witness: the empty timeline. -/
theorem stateAtStep_zero_is_initial_witness :
    getStateAtStep navEmpty 0 = some emptyTimeline.initialState :=
  stateAtStep_zero_is_initial navEmpty emptyTimeline rfl

/-- C2 counterexample: a run in which the executed instruction stores into
register 1 the value 3 it already held.  `computeDelta` (which performs no
comparison against the prior value) records the entry `1 ↦ 3` in
`changedRegisters`, yet the state immediately preceding the delta already
has `reg 1 = 3` — a no-op entry, contradicting the claimed sparseness. -/
theorem delta_sparseness_counterexample :
    ((executeProgram rewriteOps { nAsmErrors := 0 } 0 initialNav 2).timeline.map
        (fun tl => tl.deltas.map Delta.changedRegisters)) = some [[(1, 3)]]
    ∧ ((getStateAtStep (executeProgram rewriteOps { nAsmErrors := 0 } 0 initialNav 2) 0).map
        (fun s => s.reg 1)) = some 3 :=
  ⟨rfl, rfl⟩

/-- C2 (amended): every key of `d.changedRegisters` is a register index in
[0, 16) that the engine reported as stored during that step, and it maps to
that register's post-step value (its value in the state immediately
following the delta); every key of `d.changedMemory` is a logged store
address mapping to that cell's post-step value.  No comparison with the
prior value is made, so entries whose value equals the prior value (no-op
entries) can occur. -/
theorem delta_entries_record_poststep_values {ES : Type} (ops : EngineOps ES)
    (hlog : StepLogComplete ops) (asm : AsmResult) (hasm : asm.nAsmErrors = 0)
    (es0 : ES) (nav : Nav) (maxSteps : Nat) (tl : Timeline)
    (htl : (executeProgram ops asm es0 nav maxSteps).timeline = some tl)
    (i : Nat) (d : Delta) (hd : tl.deltas.get? i = some d) :
    (∀ kv ∈ d.changedRegisters, kv.1 < 16
      ∧ kv.1 ∈ ops.regStored (execN ops (i + 1) es0)
      ∧ (captureFullState ops (execN ops (i + 1) es0)).reg kv.1 = kv.2 % 65536)
    ∧ (∀ kv ∈ d.changedMemory, kv.1 ∈ ops.memStoreLog (execN ops (i + 1) es0)
      ∧ (captureFullState ops (execN ops (i + 1) es0)).mem kv.1 = kv.2 % 65536) := by
  rw [executeProgram_success ops asm es0 nav maxSteps hasm] at htl
  injection htl with htl2
  subst htl2
  have hde : d = computeDelta ops (execN ops (i + 1) es0) :=
    runLoop_get ops maxSteps es0 i d hd
  subst hde
  constructor
  · intro kv hkv
    have hs := changedRegisters_spec ops (execN ops (i + 1) es0) kv hkv
    refine ⟨hs.2.1, hs.1, ?_⟩
    show captureRegisters ops (execN ops (i + 1) es0) kv.1 = kv.2 % 65536
    unfold captureRegisters
    rw [if_pos hs.2.1, hs.2.2]
  · intro kv hkv
    have hs := changedMemory_spec ops (execN ops (i + 1) es0) kv hkv
    refine ⟨hs.1, ?_⟩
    have hbound := (hlog (execN ops i es0)).2.2
    rw [← execN_succ ops i es0] at hbound
    show captureMemory ops (execN ops (i + 1) es0) kv.1 = kv.2 % 65536
    unfold captureMemory
    rw [if_pos (hbound kv.1 hs.1), hs.2]

/-- C2 (amended) witness: the single delta of the rewriting engine's run. -/
theorem delta_entries_record_poststep_values_witness :
    (∀ kv ∈ rewriteDelta.changedRegisters, kv.1 < 16
      ∧ kv.1 ∈ rewriteOps.regStored (execN rewriteOps (0 + 1) 0)
      ∧ (captureFullState rewriteOps (execN rewriteOps (0 + 1) 0)).reg kv.1 = kv.2 % 65536)
    ∧ (∀ kv ∈ rewriteDelta.changedMemory,
        kv.1 ∈ rewriteOps.memStoreLog (execN rewriteOps (0 + 1) 0)
      ∧ (captureFullState rewriteOps (execN rewriteOps (0 + 1) 0)).mem kv.1 = kv.2 % 65536) :=
  delta_entries_record_poststep_values rewriteOps rewriteOps_log { nAsmErrors := 0 } rfl
    0 initialNav 2 rewriteTimeline rfl 0 rewriteDelta rfl

/-- C6: when the source does not assemble (a positive engine-reported error
count), the run fails with the assembly-failure diagnostic, no timeline is
observable afterwards, and the failure happens before any execution: the
result does not depend on the engine or its initial state at all. -/
theorem assembly_failure_no_timeline {ES : Type} (ops : EngineOps ES) (asm : AsmResult)
    (es0 : ES) (nav : Nav) (maxSteps : Nat) (hasm : 0 < asm.nAsmErrors) :
    (executeProgram ops asm es0 nav maxSteps).timeline = none
    ∧ (executeProgram ops asm es0 nav maxSteps).error
        = some ("Assembly failed with " ++ toString asm.nAsmErrors ++ " error(s).")
    ∧ ∀ (ES2 : Type) (ops2 : EngineOps ES2) (es2 : ES2),
        executeProgram ops2 asm es2 nav maxSteps
          = executeProgram ops asm es0 nav maxSteps := by
  refine ⟨?_, ?_, ?_⟩
  · rw [executeProgram_failure ops asm es0 nav maxSteps hasm]
  · rw [executeProgram_failure ops asm es0 nav maxSteps hasm]
  · intro ES2 ops2 es2
    rw [executeProgram_failure ops asm es0 nav maxSteps hasm,
      executeProgram_failure ops2 asm es2 nav maxSteps hasm]

/-- C6 witness: one assembly error, checked against two unrelated engines. -/
theorem assembly_failure_no_timeline_witness :
    (executeProgram haltedOps { nAsmErrors := 1 } () initialNav 5).timeline = none
    ∧ (executeProgram haltedOps { nAsmErrors := 1 } () initialNav 5).error
        = some ("Assembly failed with " ++ toString (1 : Nat) ++ " error(s).")
    ∧ ∀ (ES2 : Type) (ops2 : EngineOps ES2) (es2 : ES2),
        executeProgram ops2 { nAsmErrors := 1 } es2 initialNav 5
          = executeProgram haltedOps { nAsmErrors := 1 } () initialNav 5 :=
  assembly_failure_no_timeline haltedOps { nAsmErrors := 1 } () initialNav 5 (by decide)

/-- C7: the run loop executes at most maxSteps instructions, so the produced
timeline satisfies totalSteps ≤ maxSteps; and when the loop ends with the
machine not halted (the cap was the reason it stopped), a timeline is still
produced with no error, merely marked incomplete (completed = false). -/
theorem step_cap_truncates {ES : Type} (ops : EngineOps ES) (asm : AsmResult)
    (es0 : ES) (nav : Nav) (maxSteps : Nat) (hasm : asm.nAsmErrors = 0) :
    ∃ tl : Timeline, (executeProgram ops asm es0 nav maxSteps).timeline = some tl
      ∧ (executeProgram ops asm es0 nav maxSteps).error = none
      ∧ tl.totalSteps ≤ maxSteps
      ∧ (ops.scbStatus (runLoop ops maxSteps es0).2 ≠ SCB_halted → tl.completed = false) := by
  rw [executeProgram_success ops asm es0 nav maxSteps hasm]
  refine ⟨_, rfl, rfl, runLoop_length_le ops maxSteps es0, ?_⟩
  intro hns
  show (ops.scbStatus (runLoop ops maxSteps es0).2 == SCB_halted) = false
  exact beq_eq_false_iff_ne.mpr hns

/-- C7 witness: the halted engine under a cap of 5 steps. -/
theorem step_cap_truncates_witness :
    ∃ tl : Timeline,
      (executeProgram haltedOps { nAsmErrors := 0 } () initialNav 5).timeline = some tl
      ∧ (executeProgram haltedOps { nAsmErrors := 0 } () initialNav 5).error = none
      ∧ tl.totalSteps ≤ 5
      ∧ (haltedOps.scbStatus (runLoop haltedOps 5 ()).2 ≠ SCB_halted → tl.completed = false) :=
  step_cap_truncates haltedOps { nAsmErrors := 0 } () initialNav 5 rfl

/-- C8: for a navigator with a timeline and an in-range current step, the
derived observables agree with the contract: `currentState` is the
reconstruction at `currentStep`; `previousState` is the reconstruction at
`currentStep - 1` when `currentStep > 0` and undefined at step 0;
`currentDelta` is `timeline.deltas[currentStep - 1]` when `currentStep > 0`
and undefined at step 0. -/
theorem derived_observables (nav : Nav) (tl : Timeline) (htl : nav.timeline = some tl)
    (h0 : 0 ≤ nav.currentStep) (h1 : nav.currentStep ≤ (tl.totalSteps : Int)) :
    currentState nav = getStateAtStep nav nav.currentStep
    ∧ (0 < nav.currentStep →
        previousState nav = getStateAtStep nav (nav.currentStep - 1))
    ∧ (nav.currentStep = 0 → previousState nav = none)
    ∧ (0 < nav.currentStep →
        currentDelta nav = tl.deltas.get? (nav.currentStep - 1).toNat)
    ∧ (nav.currentStep = 0 → currentDelta nav = none) := by
  refine ⟨rfl, ?_, ?_, ?_, ?_⟩
  · intro hc
    unfold previousState
    rw [if_neg (by omega)]
  · intro hc
    unfold previousState
    rw [if_pos (by omega)]
  · intro hc
    unfold currentDelta
    rw [htl]
    exact if_neg (by omega)
  · intro hc
    unfold currentDelta
    rw [htl]
    exact if_pos (by omega)

/-- C8 witness: the empty timeline viewed at step 0. -/
theorem derived_observables_witness :
    currentState navEmpty = getStateAtStep navEmpty navEmpty.currentStep
    ∧ (0 < navEmpty.currentStep →
        previousState navEmpty = getStateAtStep navEmpty (navEmpty.currentStep - 1))
    ∧ (navEmpty.currentStep = 0 → previousState navEmpty = none)
    ∧ (0 < navEmpty.currentStep →
        currentDelta navEmpty = emptyTimeline.deltas.get? (navEmpty.currentStep - 1).toNat)
    ∧ (navEmpty.currentStep = 0 → currentDelta navEmpty = none) :=
  derived_observables navEmpty emptyTimeline rfl (by decide) (by decide)

/-- C9: reconstruction never mutates the timeline: in the heap model of the
typed arrays, `getStateAtStepH` only appends freshly allocated arrays (every
pre-existing array, in particular the initial snapshot's, reads back
unchanged), the returned state's register and memory arrays are fresh
allocations distinct from each other, from the timeline's arrays and from
everything allocated before the call, and `applyDeltaH` likewise only
allocates, never writing into the arrays of the state it is given. -/
theorem reconstruction_never_mutates (h : Heap) (tl : HTimeline) (step : Int)
    (hreg : tl.initialState.regId < h.arrs.length)
    (hmem : tl.initialState.memId < h.arrs.length) :
    (∃ ext, (getStateAtStepH h tl step).1.arrs = h.arrs ++ ext)
    ∧ (∀ i, i < h.arrs.length → (getStateAtStepH h tl step).1.read i = h.read i)
    ∧ (∀ s : HState, (getStateAtStepH h tl step).2 = some s →
        h.arrs.length ≤ s.regId ∧ h.arrs.length ≤ s.memId ∧ s.regId ≠ s.memId
        ∧ s.regId ≠ tl.initialState.regId ∧ s.memId ≠ tl.initialState.memId
        ∧ s.regId ≠ tl.initialState.memId ∧ s.memId ≠ tl.initialState.regId)
    ∧ (∀ (s2 : HState) (d : Delta),
        ∃ ext2, (applyDeltaH h s2 d).1.arrs = h.arrs ++ ext2) := by
  by_cases hc : step < 0 ∨ (tl.totalSteps : Int) < step
  · rw [getStateAtStepH_oob h tl step hc]
    exact ⟨⟨[], (List.append_nil _).symm⟩, fun i hi => rfl,
      fun s hs => Option.noConfusion hs, fun s2 d => applyDeltaH_extends h s2 d⟩
  · rw [getStateAtStepH_in_range h tl step hc]
    obtain ⟨e1, he1⟩ := cloneStateH_extends h tl.initialState
    obtain ⟨⟨e2, he2⟩, hb1, hb2, hb3⟩ := replayH_spec (tl.deltas.take step.toNat)
      (cloneStateH h tl.initialState).1 (cloneStateH h tl.initialState).2 h.arrs.length
      (by rw [cloneStateH_len]; omega)
      (le_of_eq (cloneStateH_regId h tl.initialState).symm)
      (by rw [cloneStateH_memId]; omega)
      (by rw [cloneStateH_regId, cloneStateH_memId]; omega)
    have harrs : (replayH (cloneStateH h tl.initialState).1
        (cloneStateH h tl.initialState).2 (tl.deltas.take step.toNat)).1.arrs
          = h.arrs ++ (e1 ++ e2) := by
      rw [he2, he1, List.append_assoc]
    refine ⟨⟨e1 ++ e2, harrs⟩, ?_, ?_, fun s2 d => applyDeltaH_extends h s2 d⟩
    · intro i hi
      exact heap_read_of_extends h _ (e1 ++ e2) harrs i hi
    · intro s hs
      injection hs with hs2
      subst hs2
      exact ⟨hb1, hb2, hb3, by omega, by omega, by omega, by omega⟩

/-- C9 witness: a two-array heap, its empty timeline, step 0. -/
theorem reconstruction_never_mutates_witness :
    (∃ ext, (getStateAtStepH heapTwo htlZero 0).1.arrs = heapTwo.arrs ++ ext)
    ∧ (∀ i, i < heapTwo.arrs.length →
        (getStateAtStepH heapTwo htlZero 0).1.read i = heapTwo.read i)
    ∧ (∀ s : HState, (getStateAtStepH heapTwo htlZero 0).2 = some s →
        heapTwo.arrs.length ≤ s.regId ∧ heapTwo.arrs.length ≤ s.memId
        ∧ s.regId ≠ s.memId
        ∧ s.regId ≠ htlZero.initialState.regId ∧ s.memId ≠ htlZero.initialState.memId
        ∧ s.regId ≠ htlZero.initialState.memId ∧ s.memId ≠ htlZero.initialState.regId)
    ∧ (∀ (s2 : HState) (d : Delta),
        ∃ ext2, (applyDeltaH heapTwo s2 d).1.arrs = heapTwo.arrs ++ ext2) :=
  reconstruction_never_mutates heapTwo htlZero 0 (by decide) (by decide)

/-- C10: a successful run resets the step index to 0 and clears the error
observable, so every new timeline is first viewed at its initial snapshot;
a failed run clears the timeline but leaves the step index untouched. -/
theorem run_outcome_navigator_state {ES : Type} (ops : EngineOps ES) (asm : AsmResult)
    (es0 : ES) (nav : Nav) (maxSteps : Nat) :
    (asm.nAsmErrors = 0 →
      (executeProgram ops asm es0 nav maxSteps).currentStep = 0
      ∧ (executeProgram ops asm es0 nav maxSteps).error = none
      ∧ (executeProgram ops asm es0 nav maxSteps).timeline ≠ none)
    ∧ (0 < asm.nAsmErrors →
      (executeProgram ops asm es0 nav maxSteps).timeline = none
      ∧ (executeProgram ops asm es0 nav maxSteps).currentStep = nav.currentStep) := by
  constructor
  · intro hasm
    rw [executeProgram_success ops asm es0 nav maxSteps hasm]
    exact ⟨rfl, rfl, fun hcon => Option.noConfusion hcon⟩
  · intro hasm
    rw [executeProgram_failure ops asm es0 nav maxSteps hasm]
    exact ⟨rfl, rfl⟩

/-- C10 witness: a clean run and a failing run of the halted engine. -/
theorem run_outcome_navigator_state_witness :
    ((executeProgram haltedOps { nAsmErrors := 0 } () initialNav 5).currentStep = 0
      ∧ (executeProgram haltedOps { nAsmErrors := 0 } () initialNav 5).error = none
      ∧ (executeProgram haltedOps { nAsmErrors := 0 } () initialNav 5).timeline ≠ none)
    ∧ ((executeProgram haltedOps { nAsmErrors := 1 } () initialNav 5).timeline = none
      ∧ (executeProgram haltedOps { nAsmErrors := 1 } () initialNav 5).currentStep
          = initialNav.currentStep) :=
  ⟨(run_outcome_navigator_state haltedOps { nAsmErrors := 0 } () initialNav 5).1 rfl,
   (run_outcome_navigator_state haltedOps { nAsmErrors := 1 } () initialNav 5).2 (by decide)⟩

end Sigma16
